import Mathlib

/-!
Verification of the `PackageVersion` data model from `thoth/python/package_version.py`.

Strings are embedded as lists of characters (`Str`); Python exceptions are an
explicit error type threaded through `Except`.  The external
`semantic_version` library (strict `Version` parsing and `Version.coerce`) is
modelled after its documented behaviour, restricted to ASCII character classes.
-/

namespace Thoth

/-- Characters of a Python string. -/
abbrev Str := List Char

/-- Convenience conversion from Lean string literals. -/
def str (s : String) : Str := s.data

/-- Modelled from the spec: the error kinds raised by this component (the
`exceptions` module is not under `src/`): ParseError, UnsupportedConfiguration,
InternalError, plus the Python built-ins ValueError, AttributeError, KeyError. -/
inductive PyError where
  | internalError
  | pipfileParseError
  | unsupportedConfiguration
  | valueError
  | attributeError
  | keyError
deriving Repr, DecidableEq

/-- Modelled from the spec: `PackageSource` has a `url` and a symbolic `name`
(the `source` module is not under `src/`). -/
structure Source where
  url : Str
  name : Str
deriving Repr, DecidableEq

/-- Parsed semantic version (the external library's `Version`):
major, minor, patch plus prerelease and build identifier lists. -/
structure SemVer where
  major : Nat
  minor : Nat
  patch : Nat
  prerelease : List Str
  build : List Str
deriving Repr, DecidableEq

/-- Python `s.startswith(pre)`. -/
def startswith : Str → Str → Bool
  | [], _ => true
  | _ :: _, [] => false
  | p :: ps, c :: cs => p == c && startswith ps cs

/-- Split at the first occurrence of `sep`: Python `s.split(sep, 1)`,
returning the part before and (if `sep` occurs) the part after. -/
def splitFirst (sep : Char) : Str → Str × Option Str
  | [] => ([], none)
  | c :: cs =>
    if c = sep then ([], some cs)
    else
      let r := splitFirst sep cs
      (c :: r.1, r.2)

/-- Python `s.split(sep)`: never returns an empty list (`"".split(".") == [""]`). -/
def pySplit (sep : Char) : Str → List Str
  | [] => [[]]
  | c :: cs =>
    match pySplit sep cs with
    | [] => []
    | p :: ps => if c = sep then [] :: p :: ps else (c :: p) :: ps

/-- Python `sep.join(parts)`. -/
def joinSep (sep : Char) : List Str → Str
  | [] => []
  | [p] => p
  | p :: ps => p ++ sep :: joinSep sep ps

/-- Dotted three-component version string, the reduction of `joinSep '.' [a, b, c]`. -/
def tripleStr (a b c : Str) : Str := a ++ '.' :: (b ++ '.' :: c)

/-- Python `s.isdigit()` for ASCII strings: nonempty and all decimal digits. -/
def isDigits (s : Str) : Bool := !s.isEmpty && s.all Char.isDigit

/-- Mirrors the library's `_has_leading_zero(value)`:
`value and value[0] == '0' and value.isdigit() and value != '0'`. -/
def hasLeadingZero (s : Str) : Bool :=
  match s with
  | [] => false
  | c :: _ => c == '0' && s.all Char.isDigit && !(s == ['0'])

/-- Characters admitted by the library's `[0-9a-zA-Z.-]` character class. -/
def identChar (c : Char) : Bool :=
  c.isDigit || c.isAlpha || c == '.' || c == '-'

/-- Numeric value of a digit string (used for `int(...)` of validated digits). -/
def natOfDigits (s : Str) : Nat :=
  s.foldl (fun n c => 10 * n + (c.toNat - 48)) 0

/-- Decimal digit character for a value below ten. -/
def digitChar (d : Nat) : Char := Char.ofNat (48 + d)

/-- Fueled decimal printer accumulating least-significant digits first. -/
def natReprAux : Nat → Nat → Str → Str
  | 0, _, acc => acc
  | fuel + 1, n, acc =>
    let acc := digitChar (n % 10) :: acc
    if n < 10 then acc else natReprAux fuel (n / 10) acc

/-- Decimal representation of a natural number (Python `str(n)` for `n ≥ 0`). -/
def natRepr (n : Nat) : Str := natReprAux (n + 1) n []

/-- Python `str(i)` for an integer. -/
def intRepr (i : Int) : Str :=
  match i with
  | .ofNat n => natRepr n
  | .negSucc n => '-' :: natRepr (n + 1)

/-- Python `int(s)` on the inputs arising here: an optional sign followed by
decimal digits; anything else raises ValueError. -/
def pyInt (s : Str) : Except PyError Int :=
  match s with
  | [] => .error .valueError
  | c :: rest =>
    if c = '+' then
      if isDigits rest then .ok ((natOfDigits rest : Nat) : Int) else .error .valueError
    else if c = '-' then
      if isDigits rest then .ok (-(natOfDigits rest : Nat) : Int) else .error .valueError
    else if isDigits s then .ok ((natOfDigits s : Nat) : Int) else .error .valueError

/-- Left-to-right `int(...)` over split parts; the first failure raises. -/
def mapPyInt : List Str → Except PyError (List Int)
  | [] => .ok []
  | p :: ps =>
    match pyInt p with
    | .error e => .error e
    | .ok i =>
      match mapPyInt ps with
      | .error e => .error e
      | .ok is => .ok (i :: is)

/-- Validation of dotted identifiers (`_validate_identifiers`): each identifier
must be nonempty; leading zeros in numeric identifiers are rejected unless
`allowZeroes` is set (set for build metadata, unset for prerelease). -/
def validIdentifiers (ids : List Str) (allowZeroes : Bool) : Bool :=
  ids.all (fun item => !item.isEmpty && (allowZeroes || !hasLeadingZero item))

/-- Identifier-list parsing shared by prerelease and build components:
`None` and the empty string both yield the empty tuple, otherwise the
dot-split identifiers are validated. -/
def parseIds (part : Option Str) (allowZeroes : Bool) : Except PyError (List Str) :=
  match part with
  | none => .ok []
  | some [] => .ok []
  | some p =>
    let ids := pySplit '.' p
    if validIdentifiers ids allowZeroes then .ok ids else .error .valueError

/-- Strict `semver.Version(s)` parse: the anchored pattern
`(\d+).(\d+).(\d+)` with optional `-prerelease` and `+build` suffixes over
`[0-9a-zA-Z.-]`, rejecting leading zeros in the numeric components and
validating the identifier lists. -/
def semverVersion (s : Str) : Except PyError SemVer :=
  if s.isEmpty then .error .valueError
  else
    let b := splitFirst '+' s
    let pr := splitFirst '-' b.1
    let charsOk :=
      (match pr.2 with
       | none => true
       | some p => p.all identChar) &&
      (match b.2 with
       | none => true
       | some bl => bl.all identChar)
    match pySplit '.' pr.1 with
    | [ma, mi, pa] =>
      if isDigits ma && isDigits mi && isDigits pa && charsOk then
        if hasLeadingZero ma || hasLeadingZero mi || hasLeadingZero pa then
          .error .valueError
        else
          match parseIds pr.2 false with
          | .error e => .error e
          | .ok pre =>
            match parseIds b.2 true with
            | .error e => .error e
            | .ok bld =>
              .ok { major := natOfDigits ma, minor := natOfDigits mi, patch := natOfDigits pa,
                    prerelease := pre, build := bld }
      else .error .valueError
    | _ => .error .valueError

/-- Longest match of `\d+(.\d+(.\d+)?)?` at the start of the string,
returning the matched part and the remainder. -/
def baseMatch (s : Str) : Str × Str :=
  let d1 := s.takeWhile Char.isDigit
  if d1.isEmpty then ([], s)
  else
    match s.dropWhile Char.isDigit with
    | c1 :: t1 =>
      if c1 = '.' then
        let d2 := t1.takeWhile Char.isDigit
        if d2.isEmpty then (d1, c1 :: t1)
        else
          match t1.dropWhile Char.isDigit with
          | c2 :: t2 =>
            if c2 = '.' then
              let d3 := t2.takeWhile Char.isDigit
              if d3.isEmpty then (d1 ++ c1 :: d2, c2 :: t2)
              else (d1 ++ c1 :: d2 ++ c2 :: d3, t2.dropWhile Char.isDigit)
            else (d1 ++ c1 :: d2, c2 :: t2)
          | [] => (d1 ++ c1 :: d2, [])
      else (d1, c1 :: t1)
    | [] => (d1, [])

/-- Padding step of `coerce`: `while version.count('.') < 2: version += '.0'`. -/
def padDots (v : Str) : Str :=
  if 2 ≤ v.count '.' then v
  else if v.count '.' = 1 then v ++ str ".0"
  else v ++ str ".0" ++ str ".0"

/-- Cleanup step of `coerce`: `re.sub(r'[^a-zA-Z0-9+.-]', '-', rest)`. -/
def sanitizeRest (rest : Str) : Str :=
  rest.map (fun c => if identChar c || c == '+' then c else '-')

/-- Lenient `semver.Version.coerce(s)`: extract the leading numeric component,
pad it to three parts, classify the remainder into prerelease/build pieces and
re-run the strict parse on the rebuilt string. -/
def semverCoerce (s : Str) : Except PyError SemVer :=
  let m := baseMatch s
  if m.1.isEmpty then .error .valueError
  else
    let version := padDots m.1
    if m.2.isEmpty then semverVersion version
    else
      match sanitizeRest m.2 with
      | [] => .error .valueError
      | r0 :: rtail =>
        let pb :=
          if r0 = '+' then (([] : Str), rtail)
          else if r0 = '.' then (([] : Str), rtail)
          else if r0 = '-' then
            match splitFirst '+' rtail with
            | (a, some bl) => (a, bl)
            | (a, none) => (a, ([] : Str))
          else
            match splitFirst '+' (r0 :: rtail) with
            | (a, some bl) => (a, bl)
            | (a, none) => (a, ([] : Str))
        let bld := pb.2.map (fun c => if c = '+' then '.' else c)
        let version := if pb.1.isEmpty then version else version ++ '-' :: pb.1
        let version := if bld.isEmpty then version else version ++ '+' :: bld
        semverVersion version

/-- Lexicographic comparison of character lists (ASCII string comparison). -/
def compareChars : Str → Str → Ordering
  | [], [] => .eq
  | [], _ :: _ => .lt
  | _ :: _, [] => .gt
  | a :: as, b :: bs => (compare a b).then (compareChars as bs)

/-- Single identifier comparison: numeric identifiers compare by value and
precede alphanumeric ones, which compare as ASCII strings. -/
def identCmp (a b : Str) : Ordering :=
  if isDigits a && isDigits b then compare (natOfDigits a) (natOfDigits b)
  else if isDigits a then .lt
  else if isDigits b then .gt
  else compareChars a b

/-- Identifier-list comparison: elementwise, a shorter list precedes. -/
def identsCmp : List Str → List Str → Ordering
  | [], [] => .eq
  | [], _ :: _ => .lt
  | _ :: _, [] => .gt
  | a :: as, b :: bs => (identCmp a b).then (identsCmp as bs)

/-- Prerelease comparison: a version without prerelease ranks above one with. -/
def preCmp (a b : List Str) : Ordering :=
  match a, b with
  | [], [] => .eq
  | [], _ :: _ => .gt
  | _ :: _, [] => .lt
  | _ :: _, _ :: _ => identsCmp a b

/-- Version precedence of the library on the versions arising here:
major, minor, patch, then prerelease identifiers. -/
def semverCmp (a b : SemVer) : Ordering :=
  (compare a.major b.major).then
    ((compare a.minor b.minor).then
      ((compare a.patch b.patch).then (preCmp a.prerelease b.prerelease)))

/-- Library `Version.__lt__`. -/
def semverLtB (a b : SemVer) : Bool := semverCmp a b == .lt

/-- Library `Version.__gt__`. -/
def semverGtB (a b : SemVer) : Bool := semverCmp a b == .gt

/-- A package version as described in the Pipfile.lock entry
(`@attr.s` class `PackageVersion`); the memoised `_semantic_version` cache is
kept explicit, the `_version_spec` cache is untouched by the operations below. -/
structure PackageVersion where
  name : Str
  version : Str
  develop : Bool
  index : Option Source := none
  hashes : List Str := []
  markers : Option Str := none
  semanticVersionCache : Option SemVer := none
deriving Repr, DecidableEq

/-- Record with the memoised semantic-version cache cleared. -/
def stripCache (self : PackageVersion) : PackageVersion :=
  { self with semanticVersionCache := none }

/-- Method `is_locked`: `self.version.startswith("==")`. -/
def is_locked (self : PackageVersion) : Bool :=
  startswith (str "==") self.version

/-- Method `__eq__`: `self.name == other.name and self.version == other.version
and self.index.url == self.index.url`, with Python's short-circuiting `and` and
the AttributeError raised by `self.index.url` when `index` is `None`. -/
def pvEq (self other : PackageVersion) : Except PyError Bool :=
  if self.name ≠ other.name then .ok false
  else if self.version ≠ other.version then .ok false
  else
    match self.index with
    | none => .error .attributeError
    | some idx => .ok (idx.url == idx.url)

/-- Method `negate_version`: requires `is_locked`, else InternalError;
sets `self.version = "!" + self.version[1:]`. -/
def negate_version (self : PackageVersion) : Except PyError PackageVersion :=
  if !is_locked self then .error .internalError
  else .ok { self with version := '!' :: self.version.drop 1 }

/-- Property `locked_version`: requires `is_locked`, else InternalError;
returns `self.version[len("=="):]`. -/
def locked_version (self : PackageVersion) : Except PyError Str :=
  if !is_locked self then .error .internalError
  else .ok (self.version.drop 2)

/-- Static method `parse_semantic_version`: strict parse, and on any failure
the lenient coerce (whose own ValueError propagates); logging omitted. -/
def parse_semantic_version (version_identifier : Str) : Except PyError SemVer :=
  match semverVersion version_identifier with
  | .ok v => .ok v
  | .error _ => semverCoerce version_identifier

/-- Property `semantic_version`, returning the value and the record with its
cache updated: the lock guard fires only when the cache is empty, the parse
itself runs unconditionally; a ValueError from `parse_semantic_version` is
retried after `".".join(map(str, map(int, version.split('.'))))`. -/
def semantic_version (self : PackageVersion) :
    Except PyError (SemVer × PackageVersion) :=
  if self.semanticVersionCache.isNone && !is_locked self then .error .internalError
  else
    match locked_version self with
    | .error e => .error e
    | .ok lv =>
      match parse_semantic_version lv with
      | .ok sv => .ok (sv, { self with semanticVersionCache := some sv })
      | .error .valueError =>
        match mapPyInt (pySplit '.' lv) with
        | .error e => .error e
        | .ok ints =>
          match parse_semantic_version (joinSep '.' (ints.map intRepr)) with
          | .error e => .error e
          | .ok sv => .ok (sv, { self with semanticVersionCache := some sv })
      | .error e => .error e

/-- Method `__lt__`: names must agree (else ValueError), then the parsed
semantic versions are compared. -/
def pvLt (self other : PackageVersion) : Except PyError Bool :=
  if self.name ≠ other.name then .error .valueError
  else
    match semantic_version self with
    | .error e => .error e
    | .ok sv =>
      match semantic_version other with
      | .error e => .error e
      | .ok ov => .ok (semverLtB sv.1 ov.1)

/-- Method `__gt__`: names must agree (else ValueError), then the parsed
semantic versions are compared. -/
def pvGt (self other : PackageVersion) : Except PyError Bool :=
  if self.name ≠ other.name then .error .valueError
  else
    match semantic_version self with
    | .error e => .error e
    | .ok sv =>
      match semantic_version other with
      | .error e => .error e
      | .ok ov => .ok (semverGtB sv.1 ov.1)

/-- Method `to_tuple`: `(self.name, self.locked_version, self.index.url)`;
`locked_version` is evaluated before the index is dereferenced. -/
def to_tuple (self : PackageVersion) : Except PyError (Str × Str × Str) :=
  match locked_version self with
  | .error e => .error e
  | .ok lv =>
    match self.index with
    | none => .error .attributeError
    | some idx => .ok (self.name, lv, idx.url)

/-- Method `to_tuple_locked`: same body as `to_tuple`. -/
def to_tuple_locked (self : PackageVersion) : Except PyError (Str × Str × Str) :=
  match locked_version self with
  | .error e => .error e
  | .ok lv =>
    match self.index with
    | none => .error .attributeError
    | some idx => .ok (self.name, lv, idx.url)

/-- Pipfile.lock metadata: the declared source-index registry, a mapping from
symbolic index name to `Source`. -/
structure PipenvMeta where
  sources : List (Str × Source)
deriving Repr, DecidableEq

/-- Dictionary lookup `meta.sources[n]`. -/
def lookupSource (meta : PipenvMeta) (n : Str) : Option Source :=
  (meta.sources.find? (fun p => p.1 == n)).map (fun p => p.2)

/-- Static method `_get_index_from_meta`: a named index must resolve in the
registry (else ParseError); no name at all legitimately yields no index. -/
def get_index_from_meta (meta : PipenvMeta) (_package_name : Str)
    (index_name : Option Str) : Except PyError (Option Source) :=
  match index_name with
  | some n =>
    match lookupSource meta n with
    | some s => .ok (some s)
    | none => .error .pipfileParseError
  | none => .ok none

/-- A Pipfile.lock entry dictionary restricted to the keys the code touches;
`none` stands for an absent key. -/
structure LockEntry where
  version : Option Str := none
  hashes : Option (List Str) := none
  index : Option Str := none
  markers : Option Str := none
deriving Repr, DecidableEq

/-- Python truthiness test `not entry.get(key)` for a string value. -/
def falsyStr : Option Str → Bool
  | none => true
  | some s => s.isEmpty

/-- Python truthiness test `not entry.get(key)` for a list value. -/
def falsyList : Option (List Str) → Bool
  | none => true
  | some l => l.isEmpty

/-- Classmethod `from_pipfile_lock_entry`: the entry is copied
(`entry = dict(entry)`), so the second component of the result — the caller's
dictionary after the call — is the entry unchanged.  Missing or empty
`version`/`hashes` raise ParseError; a named index resolves through the
registry. -/
def from_pipfile_lock_entry (package_name : Str) (entry : LockEntry)
    (develop : Bool) (meta : PipenvMeta) :
    Except PyError (PackageVersion × LockEntry) :=
  if falsyStr entry.version || falsyList entry.hashes then .error .pipfileParseError
  else
    match get_index_from_meta meta package_name entry.index with
    | .error e => .error e
    | .ok idx =>
      .ok ({ name := package_name,
             version := entry.version.getD [],
             index := idx,
             hashes := entry.hashes.getD [],
             markers := entry.markers,
             develop := develop }, entry)

/-- Method `to_pipfile_lock`: requires `is_locked` (else InternalError) and
produces the `{name: {version, hashes, [markers], [index name]}}` entry;
`markers` only when truthy, `index` only when present. -/
def to_pipfile_lock (self : PackageVersion) : Except PyError (Str × LockEntry) :=
  if !is_locked self then .error .internalError
  else
    .ok (self.name,
      { version := some self.version,
        hashes := some self.hashes,
        markers :=
          match self.markers with
          | some m => if m.isEmpty then none else some m
          | none => none,
        index := self.index.map (fun i => i.name) })

/-- A Pipfile entry dictionary restricted to the keys the code touches. -/
structure PipfileDict where
  version : Option Str := none
  index : Option Str := none
  markers : Option Str := none
  git : Option Str := none
  hg : Option Str := none
  bzr : Option Str := none
  svn : Option Str := none
deriving Repr, DecidableEq

/-- A Pipfile entry: either a bare version string or a dictionary. -/
inductive PipfileEntry where
  | bare (version : Str)
  | detailed (d : PipfileDict)
deriving Repr, DecidableEq

/-- Classmethod `from_pipfile_entry`, returning the instance and the caller's
entry after the call: a dictionary entry with a VCS key raises
UnsupportedConfiguration, `entry.pop("version")` raises KeyError when absent,
and the pops mutate the caller's dictionary in place (no copy is taken). -/
def from_pipfile_entry (package_name : Str) (entry : PipfileEntry)
    (develop : Bool) (meta : PipenvMeta) :
    Except PyError (PackageVersion × PipfileEntry) :=
  match entry with
  | .bare v =>
    match get_index_from_meta meta package_name none with
    | .error e => .error e
    | .ok idx =>
      .ok ({ name := package_name, version := v, index := idx,
             develop := develop }, .bare v)
  | .detailed d =>
    if d.git.isSome || d.hg.isSome || d.bzr.isSome || d.svn.isSome then
      .error .unsupportedConfiguration
    else
      match d.version with
      | none => .error .keyError
      | some v =>
        match get_index_from_meta meta package_name d.index with
        | .error e => .error e
        | .ok idx =>
          .ok ({ name := package_name, version := v, index := idx,
                 develop := develop },
               .detailed { d with version := none, index := none })

/-- Produced Pipfile.lock entry of a locked record (body of `to_pipfile_lock`),
used to phrase the serialisation round trip. -/
def lockEntryOf (self : PackageVersion) : LockEntry :=
  { version := some self.version,
    hashes := some self.hashes,
    markers :=
      match self.markers with
      | some m => if m.isEmpty then none else some m
      | none => none,
    index := self.index.map (fun i => i.name) }

/-- Registry holding exactly the record's own index under its name. -/
def metaOf (self : PackageVersion) : PipenvMeta :=
  ⟨match self.index with
   | some i => [(i.name, i)]
   | none => []⟩

end Thoth

deriving instance DecidableEq for Except

namespace Thoth

/-- A package source index as on PyPI. -/
def srcA : Source := { url := str "https://pypi.org/simple", name := str "pypi" }

/-- A second package source index with a different URL. -/
def srcB : Source := { url := str "https://thoth-station.ninja/simple", name := str "thoth" }

/-- Locked record on index `srcA`. -/
def c1left : PackageVersion :=
  { name := str "pkg", version := str "==1.0.0", develop := false, index := some srcA }

/-- Same name and version as `c1left` but resolved from index `srcB`. -/
def c1right : PackageVersion :=
  { name := str "pkg", version := str "==1.0.0", develop := false, index := some srcB }

/-- Locked record used to exercise `negate_version`. -/
def c2locked : PackageVersion :=
  { name := str "flask", version := str "==1.2.3", develop := false, index := some srcA }

/-- Range-constrained (unlocked) record. -/
def c2unlocked : PackageVersion :=
  { name := str "flask", version := str ">=1.0", develop := false, index := some srcA }

/-- Locked record with hashes, markers and an index: round-trips. -/
def c3good : PackageVersion :=
  { name := str "requests", version := str "==2.20.0", develop := false,
    index := some srcA, hashes := [str "sha256:aaaa"],
    markers := some (str "python_version >= 3.6") }

/-- Locked record with an empty hash list: its lock entry is rejected on re-parse. -/
def c3bad : PackageVersion :=
  { name := str "requests", version := str "==2.20.0", develop := false,
    index := some srcA, hashes := [], markers := none }

/-- Version `==1.0.0` of package `pkg`. -/
def c4one : PackageVersion :=
  { name := str "pkg", version := str "==1.0.0", develop := false, index := some srcA }

/-- Version `==2.0.0` of package `pkg`. -/
def c4two : PackageVersion :=
  { name := str "pkg", version := str "==2.0.0", develop := false, index := some srcA }

/-- A locked record of package `alpha`. -/
def c4alpha : PackageVersion :=
  { name := str "alpha", version := str "==1.0.0", develop := false }

/-- A locked record of package `beta`. -/
def c4beta : PackageVersion :=
  { name := str "beta", version := str "==1.0.0", develop := false }

/-- Locked record whose version has no numeric component at all. -/
def c5abc : PackageVersion :=
  { name := str "weird", version := str "==abc", develop := false }

/-- Locked record with a leading zero in the minor component. -/
def c5lead : PackageVersion :=
  { name := str "weird", version := str "==1.02.3", develop := false }

/-- Locked record with the spec's leading-zero example version. -/
def c6rec : PackageVersion :=
  { name := str "tensorflow", version := str "==3.01.2", develop := false }

/-- Well-formed lock entry with version and hashes and nothing else. -/
def c7entry : LockEntry :=
  { version := some (str "==1.0.0"), hashes := some [str "sha256:aa"] }

/-- Well-formed lock entry that also names the `pypi` index. -/
def c7indexed : LockEntry :=
  { version := some (str "==1.0.0"), hashes := some [str "sha256:aa"],
    index := some (str "pypi") }

/-- Lock entry missing the `hashes` key. -/
def c7missing : LockEntry :=
  { version := some (str "==1.0.0") }

/-- Empty source-index registry. -/
def metaEmpty : PipenvMeta := ⟨[]⟩

/-- Registry holding `srcA` under its name. -/
def metaA : PipenvMeta := ⟨[(str "pypi", srcA)]⟩

/-- Structured Pipfile entry with version, index and markers. -/
def c8dict : PipfileDict :=
  { version := some (str ">=1.0"), index := some (str "pypi"),
    markers := some (str "os_name == posix") }

/-- Locked record whose `index` field was never assigned. -/
def c9locked : PackageVersion :=
  { name := str "noidx", version := str "==1.0.0", develop := false }

/-- Unlocked record whose `index` field was never assigned. -/
def c9unlocked : PackageVersion :=
  { name := str "noidx", version := str ">=1.0", develop := false }

/-- Record of a different package, used as the other equality operand. -/
def c9other : PackageVersion :=
  { name := str "other", version := str "==2.0.0", develop := false }

/-- Pipfile dictionary entry with no keys at all. -/
def c10dict : PipfileDict := {}

end Thoth


namespace Thoth

theorem pySplit_ne_nil (sep : Char) (l : Str) : pySplit sep l ≠ [] := by
  induction l with
  | nil => simp [pySplit]
  | cons c cs ih =>
    simp only [pySplit]
    cases h : pySplit sep cs with
    | nil => exact absurd h ih
    | cons p ps =>
      by_cases hc : c = sep <;> simp [hc]

theorem joinSep_cons_cons (sep : Char) (p q : Str) (ps : List Str) :
    joinSep sep (p :: q :: ps) = p ++ sep :: joinSep sep (q :: ps) := rfl

theorem joinSep_pySplit (sep : Char) (l : Str) : joinSep sep (pySplit sep l) = l := by
  induction l with
  | nil => rfl
  | cons c cs ih =>
    simp only [pySplit]
    cases h : pySplit sep cs with
    | nil => exact absurd h (pySplit_ne_nil sep cs)
    | cons p ps =>
      rw [h] at ih
      by_cases hc : c = sep
      · subst hc
        simp [joinSep_cons_cons, ih]
      · simp only [if_neg hc]
        cases ps with
        | nil => simpa [joinSep] using congrArg (c :: ·) ih
        | cons q qs =>
          rw [joinSep_cons_cons] at ih ⊢
          simp [← ih]

theorem pySplit_of_not_mem (sep : Char) (l : Str) (h : sep ∉ l) :
    pySplit sep l = [l] := by
  induction l with
  | nil => rfl
  | cons c cs ih =>
    have hc : c ≠ sep := fun hc => h (hc ▸ List.mem_cons_self c cs)
    have hcs : sep ∉ cs := fun hm => h (List.mem_cons_of_mem c hm)
    simp only [pySplit, ih hcs, if_neg hc]

theorem pySplit_append_sep (sep : Char) (a r : Str) (h : sep ∉ a) :
    pySplit sep (a ++ sep :: r) = a :: pySplit sep r := by
  induction a with
  | nil =>
    simp only [List.nil_append, pySplit, if_pos rfl]
    cases hr : pySplit sep r with
    | nil => exact absurd hr (pySplit_ne_nil sep r)
    | cons p ps => rfl
  | cons x xs ih =>
    have hx : x ≠ sep := fun hc => h (hc ▸ List.mem_cons_self x xs)
    have hxs : sep ∉ xs := fun hm => h (List.mem_cons_of_mem x hm)
    simp only [List.cons_append, pySplit, List.append_eq, ih hxs, if_neg hx]

theorem pySplit_joinSep (sep : Char) (ps : List Str) (hne : ps ≠ [])
    (hsep : ∀ p ∈ ps, sep ∉ p) : pySplit sep (joinSep sep ps) = ps := by
  induction ps with
  | nil => exact absurd rfl hne
  | cons p qs ih =>
    cases qs with
    | nil => exact pySplit_of_not_mem sep p (hsep p (List.mem_cons_self p []))
    | cons q rs =>
      rw [joinSep_cons_cons, pySplit_append_sep sep p _ (hsep p (by simp))]
      rw [ih (by simp) (fun x hx => hsep x (List.mem_cons_of_mem p hx))]

theorem mem_joinSep (sep : Char) (ps : List Str) (c : Char)
    (h : c ∈ joinSep sep ps) : c = sep ∨ ∃ p ∈ ps, c ∈ p := by
  induction ps with
  | nil => simp [joinSep] at h
  | cons p qs ih =>
    cases qs with
    | nil =>
      right; exact ⟨p, by simp, h⟩
    | cons q rs =>
      rw [joinSep_cons_cons] at h
      rcases List.mem_append.mp h with hp | hrest
      · right; exact ⟨p, by simp, hp⟩
      · rcases List.mem_cons.mp hrest with rfl | hrest
        · left; rfl
        · rcases ih hrest with h1 | ⟨x, hx, hcx⟩
          · left; exact h1
          · right; exact ⟨x, by simp [hx], hcx⟩

theorem splitFirst_of_not_mem (sep : Char) (l : Str) (h : sep ∉ l) :
    splitFirst sep l = (l, none) := by
  induction l with
  | nil => rfl
  | cons c cs ih =>
    have hc : c ≠ sep := fun hc => h (hc ▸ List.mem_cons_self c cs)
    have hcs : sep ∉ cs := fun hm => h (List.mem_cons_of_mem c hm)
    simp [splitFirst, if_neg hc, ih hcs]

theorem takeWhile_append_cons (p : Char → Bool) (a : Str) (x : Char) (r : Str)
    (ha : ∀ c ∈ a, p c = true) (hx : p x = false) :
    (a ++ x :: r).takeWhile p = a ∧ (a ++ x :: r).dropWhile p = x :: r := by
  induction a with
  | nil => simp [List.takeWhile, List.dropWhile, hx]
  | cons c cs ih =>
    have hc : p c = true := ha c (List.mem_cons_self c cs)
    have hcs := ih (fun d hd => ha d (List.mem_cons_of_mem c hd))
    simp [List.takeWhile, List.dropWhile, hc, hcs.1, hcs.2]

theorem takeWhile_all (p : Char → Bool) (a : Str) (ha : ∀ c ∈ a, p c = true) :
    a.takeWhile p = a ∧ a.dropWhile p = [] := by
  induction a with
  | nil => simp
  | cons c cs ih =>
    have hc : p c = true := ha c (List.mem_cons_self c cs)
    have hcs := ih (fun d hd => ha d (List.mem_cons_of_mem c hd))
    simp [List.takeWhile, List.dropWhile, hc, hcs.1, hcs.2]

theorem is_locked_iff (pv : PackageVersion) :
    is_locked pv = true ↔ ∃ s, pv.version = '=' :: '=' :: s := by
  unfold is_locked
  constructor
  · intro h
    revert h
    cases hv : pv.version with
    | nil => intro h; exact absurd h (by decide)
    | cons c1 t =>
      cases t with
      | nil =>
        intro h
        have h1 : ('=' == c1 && startswith ['='] []) = true := h
        simp [startswith] at h1
      | cons c2 s =>
        intro h
        have h1 : ('=' == c1 && ('=' == c2 && startswith [] s)) = true := h
        simp only [startswith, Bool.and_eq_true, beq_iff_eq, and_true] at h1
        exact ⟨s, by rw [← h1.1, ← h1.2]⟩
  · rintro ⟨s, hs⟩
    rw [hs]
    rfl

theorem is_locked_version_ne_nil (pv : PackageVersion) (h : is_locked pv = true) :
    pv.version ≠ [] := by
  obtain ⟨s, hs⟩ := (is_locked_iff pv).mp h
  simp [hs]

theorem digit_ne (c : Char) (h : c.isDigit = true) : c ≠ '.' ∧ c ≠ '+' ∧ c ≠ '-' := by
  refine ⟨?_, ?_, ?_⟩ <;> rintro rfl <;> exact absurd h (by decide)

theorem isDigits_iff (s : Str) :
    isDigits s = true ↔ s ≠ [] ∧ ∀ c ∈ s, c.isDigit = true := by
  simp [isDigits, List.all_eq_true, List.isEmpty_iff]

theorem tripleStr_eq_joinSep (a b c : Str) : tripleStr a b c = joinSep '.' [a, b, c] := rfl

theorem triple_mem (a b c : Str) (ha : ∀ x ∈ a, x.isDigit = true)
    (hb : ∀ x ∈ b, x.isDigit = true) (hc : ∀ x ∈ c, x.isDigit = true) :
    ∀ x ∈ tripleStr a b c, x.isDigit = true ∨ x = '.' := by
  intro x hx
  rcases List.mem_append.mp hx with h1 | h2
  · exact Or.inl (ha x h1)
  · rcases List.mem_cons.mp h2 with rfl | h3
    · exact Or.inr rfl
    · rcases List.mem_append.mp h3 with h4 | h5
      · exact Or.inl (hb x h4)
      · rcases List.mem_cons.mp h5 with rfl | h6
        · exact Or.inr rfl
        · exact Or.inl (hc x h6)

theorem triple_ne_nil (a b c : Str) : tripleStr a b c ≠ [] := by
  intro h
  rcases List.append_eq_nil.mp h with ⟨-, h2⟩
  exact List.cons_ne_nil _ _ h2

theorem pySplit_triple (a b c : Str) (ha : ∀ x ∈ a, x.isDigit = true)
    (hb : ∀ x ∈ b, x.isDigit = true) (hc : ∀ x ∈ c, x.isDigit = true) :
    pySplit '.' (tripleStr a b c) = [a, b, c] := by
  have hmem : ∀ p ∈ [a, b, c], '.' ∉ p := by
    intro p hp hdot
    rcases List.mem_cons.mp hp with rfl | hp1
    · exact (digit_ne '.' (ha '.' hdot)).1 rfl
    · rcases List.mem_cons.mp hp1 with rfl | hp2
      · exact (digit_ne '.' (hb '.' hdot)).1 rfl
      · rcases List.mem_cons.mp hp2 with rfl | hp3
        · exact (digit_ne '.' (hc '.' hdot)).1 rfl
        · simp at hp3
  exact pySplit_joinSep '.' [a, b, c] (by simp) hmem

theorem semverVersion_triple (a b c : Str) (ha : isDigits a = true)
    (hb : isDigits b = true) (hc : isDigits c = true) :
    semverVersion (tripleStr a b c) =
      if hasLeadingZero a || hasLeadingZero b || hasLeadingZero c then .error .valueError
      else .ok ⟨natOfDigits a, natOfDigits b, natOfDigits c, [], []⟩ := by
  obtain ⟨-, hamem⟩ := (isDigits_iff a).mp ha
  obtain ⟨-, hbmem⟩ := (isDigits_iff b).mp hb
  obtain ⟨-, hcmem⟩ := (isDigits_iff c).mp hc
  have hchars := triple_mem a b c hamem hbmem hcmem
  have hplus : '+' ∉ tripleStr a b c := by
    intro hm
    rcases hchars '+' hm with h1 | h1 <;> exact absurd h1 (by decide)
  have hminus : '-' ∉ tripleStr a b c := by
    intro hm
    rcases hchars '-' hm with h1 | h1 <;> exact absurd h1 (by decide)
  have hemp : (tripleStr a b c).isEmpty = false := by
    rw [List.isEmpty_eq_false]
    exact triple_ne_nil a b c
  unfold semverVersion
  rw [hemp]
  simp only [Bool.false_eq_true, if_false]
  rw [splitFirst_of_not_mem '+' _ hplus]
  simp only
  rw [splitFirst_of_not_mem '-' _ hminus]
  simp only
  rw [pySplit_triple a b c hamem hbmem hcmem]
  simp only [ha, hb, hc, Bool.and_self, Bool.true_and, Bool.and_true, if_true]
  rfl

theorem baseMatch_triple (a b c : Str) (ha : isDigits a = true)
    (hb : isDigits b = true) (hc : isDigits c = true) :
    baseMatch (tripleStr a b c) = (tripleStr a b c, []) := by
  obtain ⟨hane, hamem⟩ := (isDigits_iff a).mp ha
  obtain ⟨hbne, hbmem⟩ := (isDigits_iff b).mp hb
  obtain ⟨hcne, hcmem⟩ := (isDigits_iff c).mp hc
  have hdot : Char.isDigit '.' = false := by decide
  have h1 := takeWhile_append_cons Char.isDigit a '.' (b ++ '.' :: c) hamem hdot
  have h2 := takeWhile_append_cons Char.isDigit b '.' c hbmem hdot
  have h3 := takeWhile_all Char.isDigit c hcmem
  have haemp : a.isEmpty = false := by rw [List.isEmpty_eq_false]; exact hane
  have hbemp : b.isEmpty = false := by rw [List.isEmpty_eq_false]; exact hbne
  have hcemp : c.isEmpty = false := by rw [List.isEmpty_eq_false]; exact hcne
  unfold baseMatch tripleStr
  simp only [h1.1, h1.2, haemp, Bool.false_eq_true, if_false, eq_self_iff_true, if_true]
  simp only [h2.1, h2.2, hbemp, Bool.false_eq_true, if_false, eq_self_iff_true, if_true]
  simp only [h3.1, h3.2, hcemp, Bool.false_eq_true, if_false, eq_self_iff_true, if_true]
  simp [List.append_assoc]

theorem count_dot_triple (a b c : Str) (ha : isDigits a = true)
    (hb : isDigits b = true) (hc : isDigits c = true) :
    (tripleStr a b c).count '.' = 2 := by
  obtain ⟨-, hamem⟩ := (isDigits_iff a).mp ha
  obtain ⟨-, hbmem⟩ := (isDigits_iff b).mp hb
  obtain ⟨-, hcmem⟩ := (isDigits_iff c).mp hc
  have hna : a.count '.' = 0 :=
    List.count_eq_zero.mpr (fun hm => (digit_ne '.' (hamem '.' hm)).1 rfl)
  have hnb : b.count '.' = 0 :=
    List.count_eq_zero.mpr (fun hm => (digit_ne '.' (hbmem '.' hm)).1 rfl)
  have hnc : c.count '.' = 0 :=
    List.count_eq_zero.mpr (fun hm => (digit_ne '.' (hcmem '.' hm)).1 rfl)
  simp [tripleStr, List.count_append, List.count_cons, hna, hnb, hnc]

theorem padDots_triple (a b c : Str) (ha : isDigits a = true)
    (hb : isDigits b = true) (hc : isDigits c = true) :
    padDots (tripleStr a b c) = tripleStr a b c := by
  unfold padDots
  rw [count_dot_triple a b c ha hb hc]
  simp

theorem semverCoerce_triple (a b c : Str) (ha : isDigits a = true)
    (hb : isDigits b = true) (hc : isDigits c = true) :
    semverCoerce (tripleStr a b c) = semverVersion (tripleStr a b c) := by
  unfold semverCoerce
  rw [baseMatch_triple a b c ha hb hc]
  simp only
  have hemp : (tripleStr a b c).isEmpty = false := by
    rw [List.isEmpty_eq_false]; exact triple_ne_nil a b c
  rw [hemp]
  simp only [Bool.false_eq_true, if_false, List.isEmpty_nil, if_true]
  rw [padDots_triple a b c ha hb hc]

theorem parse_semantic_version_triple (a b c : Str) (ha : isDigits a = true)
    (hb : isDigits b = true) (hc : isDigits c = true) :
    parse_semantic_version (tripleStr a b c) =
      if hasLeadingZero a || hasLeadingZero b || hasLeadingZero c then .error .valueError
      else .ok ⟨natOfDigits a, natOfDigits b, natOfDigits c, [], []⟩ := by
  unfold parse_semantic_version
  rw [semverVersion_triple a b c ha hb hc]
  by_cases hz : (hasLeadingZero a || hasLeadingZero b || hasLeadingZero c) = true
  · rw [if_pos hz]
    simp only
    rw [semverCoerce_triple a b c ha hb hc, semverVersion_triple a b c ha hb hc, if_pos hz]
  · rw [if_neg hz]

theorem digitChar_isDigit (d : Nat) (h : d < 10) : (digitChar d).isDigit = true := by
  interval_cases d <;> decide

theorem digitChar_eq_zero_iff (d : Nat) (h : d < 10) : digitChar d = '0' ↔ d = 0 := by
  interval_cases d <;> simp [digitChar]

theorem natReprAux_spec (fuel : Nat) : ∀ (n : Nat) (acc : Str), 0 < fuel → n < 10 ^ fuel →
    ∃ p, natReprAux fuel n acc = p ++ acc ∧ p ≠ [] ∧ (∀ x ∈ p, x.isDigit = true) ∧
      (n = 0 → p = ['0']) ∧ (n ≠ 0 → ∀ x, p.head? = some x → x ≠ '0') := by
  induction fuel with
  | zero => intro n acc hf _; exact absurd hf (by omega)
  | succ fuel ih =>
    intro n acc _ hlt
    by_cases h10 : n < 10
    · refine ⟨[digitChar (n % 10)], ?_, by simp, ?_, ?_, ?_⟩
      · simp [natReprAux, h10]
      · intro x hx
        rcases List.mem_singleton.mp hx with rfl
        exact digitChar_isDigit _ (Nat.mod_lt _ (by omega))
      · rintro rfl; rfl
      · intro hn x hx
        have hx1 : x = digitChar (n % 10) := by simpa using hx.symm
        subst hx1
        rw [Nat.mod_eq_of_lt h10]
        intro hzero
        exact hn ((digitChar_eq_zero_iff n h10).mp hzero)
    · have hf2 : 0 < fuel := by
        rcases Nat.eq_zero_or_pos fuel with rfl | h
        · exact absurd hlt (by simpa using h10)
        · exact h
      have hdiv : n / 10 < 10 ^ fuel := by
        rw [Nat.div_lt_iff_lt_mul (by omega : (0:Nat) < 10)]
        calc n < 10 ^ (fuel + 1) := hlt
        _ = 10 ^ fuel * 10 := by rw [pow_succ]
      obtain ⟨p, heq, hne, hdig, hz, hhead⟩ := ih (n / 10) (digitChar (n % 10) :: acc) hf2 hdiv
      refine ⟨p ++ [digitChar (n % 10)], ?_, by simp [hne], ?_, ?_, ?_⟩
      · rw [natReprAux]
        simp only [h10, if_false]
        rw [heq, List.append_assoc]
        rfl
      · intro x hx
        rcases List.mem_append.mp hx with h1 | h1
        · exact hdig x h1
        · rcases List.mem_singleton.mp h1 with rfl
          exact digitChar_isDigit _ (Nat.mod_lt _ (by omega))
      · intro hn; omega
      · intro _ x hx
        have hd : n / 10 ≠ 0 := by omega
        cases p with
        | nil => exact absurd rfl hne
        | cons y ys =>
          have : x = y := by simpa using hx.symm
          subst this
          exact hhead hd x rfl
    
theorem natRepr_spec (n : Nat) :
    isDigits (natRepr n) = true ∧ hasLeadingZero (natRepr n) = false := by
  have hlt : n < 10 ^ (n + 1) :=
    lt_of_lt_of_le (Nat.lt_pow_self (by omega) n)
      (Nat.pow_le_pow_right (by omega) (Nat.le_succ n))
  obtain ⟨p, heq, hne, hdig, hz, hhead⟩ := natReprAux_spec (n + 1) n [] (by omega) hlt
  have hp : natRepr n = p := by rw [natRepr, heq, List.append_nil]
  rw [hp]
  constructor
  · exact (isDigits_iff p).mpr ⟨hne, hdig⟩
  · by_cases hn : n = 0
    · rw [hz hn]; decide
    · cases p with
      | nil => exact absurd rfl hne
      | cons x xs =>
        have hx : x ≠ '0' := hhead hn x rfl
        simp [hasLeadingZero, hx]

theorem pyInt_digits (p : Str) (h : isDigits p = true) :
    pyInt p = .ok ((natOfDigits p : Nat) : Int) := by
  obtain ⟨hne, hdig⟩ := (isDigits_iff p).mp h
  cases p with
  | nil => exact absurd rfl hne
  | cons c cs =>
    have hc : c.isDigit = true := hdig c (List.mem_cons_self c cs)
    have h1 : c ≠ '+' := (digit_ne c hc).2.1
    have h2 : c ≠ '-' := (digit_ne c hc).2.2
    simp [pyInt, h1, h2, h]

theorem intRepr_natOfDigits (m : Nat) : intRepr ((m : Nat) : Int) = natRepr m := rfl

theorem locked_version_triple (pv : PackageVersion) (v : Str)
    (hv : pv.version = '=' :: '=' :: v) : locked_version pv = .ok v := by
  have hlocked : is_locked pv = true := (is_locked_iff pv).mpr ⟨v, hv⟩
  unfold locked_version
  rw [hlocked]
  simp [hv]

/-- C5 (amended): for every locked record whose locked version has three nonempty
dot-separated decimal-digit components, `semantic_version` returns without
raising, recovering leading zeros through the fallbacks (strict parse, lenient
coerce, then the zero-trimmed retry); versions unparsable by every tier raise
ValueError to the caller (see the counterexample). -/
theorem c5_semantic_version_numeric (pv : PackageVersion) (v a b c : Str)
    (hv : pv.version = '=' :: '=' :: v)
    (hsplit : pySplit '.' v = [a, b, c])
    (ha : isDigits a = true) (hb : isDigits b = true) (hc : isDigits c = true) :
    ∃ sv, semantic_version pv = .ok (sv, { pv with semanticVersionCache := some sv }) := by
  have hlocked : is_locked pv = true := (is_locked_iff pv).mpr ⟨v, hv⟩
  have hveq : v = tripleStr a b c := by
    have h1 := joinSep_pySplit '.' v
    rw [hsplit] at h1
    rw [← h1, tripleStr_eq_joinSep]
  subst hveq
  have hlv : locked_version pv = .ok (tripleStr a b c) := locked_version_triple pv _ hv
  unfold semantic_version
  rw [hlocked]
  simp only [Bool.not_true, Bool.and_false, Bool.false_eq_true, if_false]
  rw [hlv]
  simp only
  rw [parse_semantic_version_triple a b c ha hb hc]
  by_cases hz : (hasLeadingZero a || hasLeadingZero b || hasLeadingZero c) = true
  · rw [if_pos hz]
    simp only
    rw [hsplit]
    have hm : mapPyInt [a, b, c] =
        .ok [((natOfDigits a : Nat) : Int), ((natOfDigits b : Nat) : Int),
             ((natOfDigits c : Nat) : Int)] := by
      rw [mapPyInt, pyInt_digits a ha, mapPyInt, pyInt_digits b hb,
          mapPyInt, pyInt_digits c hc, mapPyInt]
    rw [hm]
    simp only
    have hj : joinSep '.' (List.map intRepr
        [((natOfDigits a : Nat) : Int), ((natOfDigits b : Nat) : Int),
         ((natOfDigits c : Nat) : Int)]) =
        tripleStr (natRepr (natOfDigits a)) (natRepr (natOfDigits b))
          (natRepr (natOfDigits c)) := rfl
    rw [hj]
    rw [parse_semantic_version_triple _ _ _ (natRepr_spec _).1 (natRepr_spec _).1
        (natRepr_spec _).1]
    rw [(natRepr_spec (natOfDigits a)).2, (natRepr_spec (natOfDigits b)).2,
        (natRepr_spec (natOfDigits c)).2]
    simp only [Bool.or_self, Bool.false_eq_true, if_false]
    exact ⟨_, rfl⟩
  · rw [if_neg hz]
    exact ⟨_, rfl⟩

theorem lockEntryOf_version (pv : PackageVersion) : (lockEntryOf pv).version = some pv.version := rfl

/-- C3 (amended): every locked record with a non-empty hash list and markers not
equal to the empty string serialises with `to_pipfile_lock` and re-parses with
`from_pipfile_lock_entry` (registry holding the record's index under its name,
same name and develop flag) back to a record equal to the original ignoring the
memoised caches. -/
theorem c3_roundtrip : ∀ pv : PackageVersion, is_locked pv = true → pv.hashes ≠ [] →
    pv.markers ≠ some [] →
    to_pipfile_lock pv = .ok (pv.name, lockEntryOf pv) ∧
    from_pipfile_lock_entry pv.name (lockEntryOf pv) pv.develop (metaOf pv) =
      .ok (stripCache pv, lockEntryOf pv) := by
  intro pv hlock hh hm
  obtain ⟨s, hs⟩ := (is_locked_iff pv).mp hlock
  constructor
  · unfold to_pipfile_lock
    rw [hlock]
    simp [lockEntryOf]
  · unfold from_pipfile_lock_entry
    have hfv : falsyStr (lockEntryOf pv).version = false := by
      rw [lockEntryOf_version]
      simp [falsyStr, hs]
    have hfh : falsyList (lockEntryOf pv).hashes = false := by
      simp [lockEntryOf, falsyList, List.isEmpty_eq_false, hh]
    rw [hfv, hfh]
    simp only [Bool.or_self, Bool.false_eq_true, if_false]
    have hmark : (lockEntryOf pv).markers = pv.markers := by
      unfold lockEntryOf
      cases hmk : pv.markers with
      | none => rfl
      | some m =>
        have hne : m ≠ [] := by
          intro h0
          exact hm (by rw [hmk, h0])
        simp [List.isEmpty_eq_false, hne]
    cases hidx : pv.index with
    | none =>
      have hgi : get_index_from_meta (metaOf pv) pv.name (lockEntryOf pv).index = .ok none := by
        simp [lockEntryOf, hidx, get_index_from_meta]
      rw [hgi]
      simp only [Option.getD]
      rw [hmark]
      simp [stripCache, lockEntryOf, hidx]
    | some i =>
      have hgi : get_index_from_meta (metaOf pv) pv.name (lockEntryOf pv).index = .ok (some i) := by
        simp [lockEntryOf, hidx, get_index_from_meta, metaOf, lookupSource, List.find?]
      rw [hgi]
      simp only [Option.getD]
      rw [hmark]
      simp [stripCache, lockEntryOf, hidx]

/-- C2 (amended): `negate_version` on a record whose version starts with `==`
replaces only the first character with `!`, producing a `!=`-prefixed version;
on a record that is not locked it raises InternalError. -/
theorem c2_negate_version :
    (∀ (pv : PackageVersion) (s : Str), pv.version = '=' :: '=' :: s →
      negate_version pv = .ok { pv with version := '!' :: '=' :: s }) ∧
    (∀ pv : PackageVersion, is_locked pv = false →
      negate_version pv = .error .internalError) := by
  constructor
  · intro pv s hv
    have hlock : is_locked pv = true := (is_locked_iff pv).mpr ⟨s, hv⟩
    unfold negate_version
    rw [hlock]
    simp [hv]
  · intro pv h
    unfold negate_version
    rw [h]
    rfl

/-- C4: ordering two records of different names raises ValueError for both
`<` and `>`; between same-name records the parsed semantic versions are
compared, so `==1.0.0` is less than `==2.0.0` of the same package. -/
theorem c4_ordering :
    (∀ a b : PackageVersion, a.name ≠ b.name →
      pvLt a b = .error .valueError ∧ pvGt a b = .error .valueError) ∧
    pvLt c4one c4two = .ok true ∧ pvGt c4one c4two = .ok false := by
  refine ⟨?_, by decide, by decide⟩
  intro a b h
  constructor <;> simp [pvLt, pvGt, h]

/-- C7: `from_pipfile_lock_entry` raises ParseError whenever `version` or
`hashes` is missing or empty; with both present and non-empty it succeeds,
`index` (when it resolves in the registry) and `markers` being optional. -/
theorem c7_lock_entry_validation :
    (∀ (nm : Str) (entry : LockEntry) (develop : Bool) (meta : PipenvMeta),
      (falsyStr entry.version || falsyList entry.hashes) = true →
      from_pipfile_lock_entry nm entry develop meta = .error .pipfileParseError) ∧
    (∀ (nm : Str) (entry : LockEntry) (develop : Bool) (meta : PipenvMeta) (v : Str)
        (hs : List Str), entry.version = some v → v ≠ [] → entry.hashes = some hs → hs ≠ [] →
      entry.index = none →
      from_pipfile_lock_entry nm entry develop meta =
        .ok ({ name := nm, version := v, develop := develop, index := none,
               hashes := hs, markers := entry.markers }, entry)) ∧
    (∀ (nm : Str) (entry : LockEntry) (develop : Bool) (meta : PipenvMeta) (v : Str)
        (hs : List Str) (ix : Str) (s : Source), entry.version = some v → v ≠ [] →
      entry.hashes = some hs → hs ≠ [] → entry.index = some ix →
      lookupSource meta ix = some s →
      from_pipfile_lock_entry nm entry develop meta =
        .ok ({ name := nm, version := v, develop := develop, index := some s,
               hashes := hs, markers := entry.markers }, entry)) := by
  refine ⟨?_, ?_, ?_⟩
  · intro nm entry develop meta h
    unfold from_pipfile_lock_entry
    rw [h]
    rfl
  · intro nm entry develop meta v hs hv hvne hh hhne hidx
    unfold from_pipfile_lock_entry
    rw [hv, hh]
    have h1 : falsyStr (some v) = false := by simp [falsyStr, List.isEmpty_eq_false, hvne]
    have h2 : falsyList (some hs) = false := by simp [falsyList, List.isEmpty_eq_false, hhne]
    rw [h1, h2]
    simp only [Bool.or_self, Bool.false_eq_true, if_false]
    rw [hidx]
    simp [get_index_from_meta]
  · intro nm entry develop meta v hs ix s hv hvne hh hhne hidx hlook
    unfold from_pipfile_lock_entry
    rw [hv, hh]
    have h1 : falsyStr (some v) = false := by simp [falsyStr, List.isEmpty_eq_false, hvne]
    have h2 : falsyList (some hs) = false := by simp [falsyList, List.isEmpty_eq_false, hhne]
    rw [h1, h2]
    simp only [Bool.or_self, Bool.false_eq_true, if_false]
    rw [hidx]
    simp [get_index_from_meta, hlook]

/-- C8: `from_pipfile_entry` on a dictionary entry pops `version` and `index`
from the caller's dictionary, which is returned with those keys removed,
whereas `from_pipfile_lock_entry` copies the entry first and always hands the
caller's dictionary back unchanged. -/
theorem c8_entry_mutation :
    (∀ (nm : Str) (d : PipfileDict) (develop : Bool) (meta : PipenvMeta) (v : Str)
        (idx : Option Source),
      d.git = none → d.hg = none → d.bzr = none → d.svn = none →
      d.version = some v → get_index_from_meta meta nm d.index = .ok idx →
      from_pipfile_entry nm (.detailed d) develop meta =
        .ok ({ name := nm, version := v, index := idx, develop := develop },
             .detailed { d with version := none, index := none })) ∧
    (∀ (nm : Str) (entry : LockEntry) (develop : Bool) (meta : PipenvMeta),
      from_pipfile_lock_entry nm entry develop meta = .error .pipfileParseError ∨
      ∃ pv, from_pipfile_lock_entry nm entry develop meta = .ok (pv, entry)) := by
  constructor
  · intro nm d develop meta v idx hg hh hb hsvn hv hidx
    unfold from_pipfile_entry
    dsimp only
    rw [hg, hh, hb, hsvn]
    simp only [Option.isSome_none, Bool.or_self, Bool.false_eq_true, if_false]
    rw [hv]
    simp only
    rw [hidx]
  · intro nm entry develop meta
    unfold from_pipfile_lock_entry
    by_cases hfal : (falsyStr entry.version || falsyList entry.hashes) = true
    · left; rw [hfal]; rfl
    · rw [Bool.not_eq_true] at hfal
      rw [hfal]
      simp only [Bool.false_eq_true, if_false]
      cases hidx : entry.index with
      | none => right; exact ⟨_, rfl⟩
      | some n =>
        cases hlook : lookupSource meta n with
        | none =>
          have hgi : get_index_from_meta meta nm (some n) = .error .pipfileParseError := by
            simp [get_index_from_meta, hlook]
          rw [hgi]
          left; rfl
        | some s =>
          have hgi : get_index_from_meta meta nm (some n) = .ok (some s) := by
            simp [get_index_from_meta, hlook]
          rw [hgi]
          right; exact ⟨_, rfl⟩

/-- C9 (amended): on a locked record with no index, `to_tuple` and
`to_tuple_locked` fail with AttributeError (with InternalError instead when
unlocked), and `__eq__` fails with AttributeError exactly when the other
record's name and version both agree; otherwise it short-circuits to a
result. -/
theorem c9_missing_index :
    (∀ pv : PackageVersion, pv.index = none → is_locked pv = true →
      to_tuple pv = .error .attributeError ∧ to_tuple_locked pv = .error .attributeError) ∧
    (∀ pv other : PackageVersion, pv.index = none → pv.name = other.name →
      pv.version = other.version → pvEq pv other = .error .attributeError) ∧
    (∀ pv : PackageVersion, pv.index = none → is_locked pv = false →
      to_tuple pv = .error .internalError ∧ to_tuple_locked pv = .error .internalError) := by
  refine ⟨?_, ?_, ?_⟩
  · intro pv hidx hlock
    obtain ⟨s, hs⟩ := (is_locked_iff pv).mp hlock
    have hlv := locked_version_triple pv s hs
    constructor
    · unfold to_tuple; rw [hlv, hidx]
    · unfold to_tuple_locked; rw [hlv, hidx]
  · intro pv other hidx hn hv
    unfold pvEq
    rw [hn, hv, hidx]
    simp
  · intro pv hidx hunlock
    have hlv : locked_version pv = .error .internalError := by
      unfold locked_version
      rw [hunlock]
      rfl
    constructor
    · unfold to_tuple; rw [hlv]
    · unfold to_tuple_locked; rw [hlv]

/-- C10: `from_pipfile_entry` on a dictionary entry without VCS keys and
without a `version` key raises KeyError (not ParseError). -/
theorem c10_missing_version_keyerror :
    ∀ (d : PipfileDict) (nm : Str) (develop : Bool) (meta : PipenvMeta),
      d.git = none → d.hg = none → d.bzr = none → d.svn = none → d.version = none →
      from_pipfile_entry nm (.detailed d) develop meta = .error .keyError := by
  intro d nm develop meta hg hh hb hsvn hv
  unfold from_pipfile_entry
  dsimp only
  rw [hg, hh, hb, hsvn]
  simp only [Option.isSome_none, Bool.or_self, Bool.false_eq_true, if_false]
  rw [hv]

/-- C1: evaluation of `__eq__` at two records agreeing on name and version but
resolved from indexes with different URLs — the code compares `self.index.url`
with itself and returns True, where the claim requires the two records' index
URLs to be equal. -/
theorem c1_eq_self_url_comparison :
    c1left.name = c1right.name ∧ c1left.version = c1right.version ∧
    c1left.index = some srcA ∧ c1right.index = some srcB ∧ srcA.url ≠ srcB.url ∧
    pvEq c1left c1right = .ok true := by decide

/-- C2 counterexample: on version `==1.2.3` the code produces `!=1.2.3`,
not the `!1.2.3` the claim states. -/
theorem c2_counterexample :
    c2locked.version = str "==1.2.3" ∧
    negate_version c2locked = .ok { c2locked with version := str "!=1.2.3" } ∧
    str "!=1.2.3" ≠ str "!1.2.3" := by decide

/-- C2 witness: the amended theorem applied to `==1.2.3` and `>=1.0`. -/
theorem c2_witness :
    negate_version c2locked = .ok { c2locked with version := '!' :: '=' :: str "1.2.3" } ∧
    negate_version c2unlocked = .error .internalError :=
  ⟨c2_negate_version.1 c2locked (str "1.2.3") rfl, c2_negate_version.2 c2unlocked rfl⟩

/-- C3 counterexample: a locked record with an empty hash list serialises
fine but its lock entry is rejected on re-parse with ParseError, so the
round trip of the claim fails. -/
theorem c3_counterexample :
    is_locked c3bad = true ∧
    to_pipfile_lock c3bad = .ok (c3bad.name, lockEntryOf c3bad) ∧
    from_pipfile_lock_entry c3bad.name (lockEntryOf c3bad) c3bad.develop (metaOf c3bad) =
      .error .pipfileParseError := by decide

/-- C3 witness: the round trip at a concrete locked record with hashes,
markers and an index. -/
theorem c3_witness :
    to_pipfile_lock c3good = .ok (c3good.name, lockEntryOf c3good) ∧
    from_pipfile_lock_entry c3good.name (lockEntryOf c3good) c3good.develop (metaOf c3good) =
      .ok (stripCache c3good, lockEntryOf c3good) :=
  c3_roundtrip c3good (by decide) (by decide) (by decide)

/-- C4 witness: comparing records of packages `alpha` and `beta` raises
ValueError. -/
theorem c4_witness : pvLt c4alpha c4beta = .error .valueError :=
  (c4_ordering.1 c4alpha c4beta (by decide)).1

/-- C5 counterexample: the locked version `==abc` is unparsable by every
fallback tier and `semantic_version` raises ValueError to the caller,
refuting the claim that no parse error ever surfaces. -/
theorem c5_counterexample :
    is_locked c5abc = true ∧ semantic_version c5abc = .error .valueError := by decide

/-- C5 witness: the amended theorem applied to the locked version `==1.02.3`. -/
theorem c5_witness :
    semantic_version c5lead = .ok (⟨1, 2, 3, [], []⟩,
      { c5lead with semanticVersionCache := some ⟨1, 2, 3, [], []⟩ }) := by
  obtain ⟨sv, h⟩ := c5_semantic_version_numeric c5lead (str "1.02.3") (str "1")
    (str "02") (str "3") rfl (by decide) (by decide) (by decide) (by decide)
  have h2 : semantic_version c5lead = .ok (⟨1, 2, 3, [], []⟩,
      { c5lead with semanticVersionCache := some ⟨1, 2, 3, [], []⟩ }) := by decide
  rw [h] at h2
  have h4 : sv = ⟨1, 2, 3, [], []⟩ := congrArg Prod.fst (Except.ok.inj h2)
  rw [h, h4]

/-- C6: on the locked version `==3.01.2` the accessor returns without raising
and yields the semantic version 3.1.2 (the leading-zero workaround). -/
theorem c6_leading_zero :
    semantic_version c6rec = .ok (⟨3, 1, 2, [], []⟩,
      { c6rec with semanticVersionCache := some ⟨3, 1, 2, [], []⟩ }) := by decide

/-- C7 witness: a missing `hashes` key raises ParseError; entries with both
fields succeed, without an index and with a resolvable one. -/
theorem c7_witness :
    from_pipfile_lock_entry (str "p") c7missing false metaEmpty = .error .pipfileParseError ∧
    from_pipfile_lock_entry (str "p") c7entry false metaEmpty =
      .ok ({ name := str "p", version := str "==1.0.0", develop := false, index := none,
             hashes := [str "sha256:aa"], markers := none }, c7entry) ∧
    from_pipfile_lock_entry (str "p") c7indexed false metaA =
      .ok ({ name := str "p", version := str "==1.0.0", develop := false, index := some srcA,
             hashes := [str "sha256:aa"], markers := none }, c7indexed) :=
  ⟨c7_lock_entry_validation.1 (str "p") c7missing false metaEmpty (by decide),
   c7_lock_entry_validation.2.1 (str "p") c7entry false metaEmpty (str "==1.0.0")
     [str "sha256:aa"] rfl (by decide) rfl (by decide) rfl,
   c7_lock_entry_validation.2.2 (str "p") c7indexed false metaA (str "==1.0.0")
     [str "sha256:aa"] (str "pypi") srcA rfl (by decide) rfl (by decide) rfl (by decide)⟩

/-- C8 witness: parsing a dictionary Pipfile entry returns the caller's
dictionary with `version` and `index` removed and `markers` still present. -/
theorem c8_witness :
    from_pipfile_entry (str "flask") (.detailed c8dict) false metaA =
      .ok ({ name := str "flask", version := str ">=1.0", index := some srcA,
             develop := false },
           .detailed { c8dict with version := none, index := none }) :=
  c8_entry_mutation.1 (str "flask") c8dict false metaA (str ">=1.0") (some srcA)
    rfl rfl rfl rfl rfl (by decide)

/-- C9 counterexample: a record with no index compared against a record of a
different name returns False instead of failing with an attribute error,
refuting the claim for `__eq__`. -/
theorem c9_counterexample :
    c9locked.index = none ∧ pvEq c9locked c9other = .ok false := by decide

/-- C9 witness: the amended theorem applied to concrete records with no
index. -/
theorem c9_witness :
    to_tuple c9locked = .error .attributeError ∧
    pvEq c9locked c9locked = .error .attributeError ∧
    to_tuple c9unlocked = .error .internalError :=
  ⟨(c9_missing_index.1 c9locked rfl rfl).1,
   c9_missing_index.2.1 c9locked c9locked rfl rfl rfl,
   (c9_missing_index.2.2 c9unlocked rfl rfl).1⟩

/-- C10 witness: the empty dictionary entry raises KeyError. -/
theorem c10_witness :
    from_pipfile_entry (str "p") (.detailed c10dict) false metaEmpty = .error .keyError :=
  c10_missing_version_keyerror c10dict (str "p") false metaEmpty rfl rfl rfl rfl rfl

end Thoth
